import Mathlib

/-!
# Verification of the `sitegen` incremental build index

Shallow embedding of the indexing / caching subsystem of the `sitegen`
repository (`src/sitegen/site.py`, `src/sitegen/context.py`), together with
theorems settling the frozen claims about it.

Modelling conventions:
* filesystem paths are lists of components (`SPath`);
* timestamps are integers (`datetime` values compared by `<` / `>`);
* the pickled byte stream is a list of tokens (`Tok`), one token per
  serialized atom, so "mutating one byte" becomes mutating one token;
* gzip is modelled as an injective framing (a magic header) whose
  decompressor only accepts its own output;
* SHA-256 is modelled by an injective digest function (`sha256_hex`),
  which captures the collision-freeness the cache design relies on;
* the `Metrics` timing context manager (imported by `site.py` but not part
  of the sources) is a pure timing wrapper and is omitted: entering and
  leaving it does not affect any of the data flow modelled here.
-/

namespace Sitegen

/-- A filesystem path, as its list of components
(`pathlib.Path` in the source). -/
abbrev SPath := List String

/-- `sitegen.context.BuildReason` (context.py:10). -/
inductive BuildReason where
  | CREATED
  | CHANGED
  | UNCHANGED
  | DELETED
  | VALIDATION
deriving DecidableEq, Repr

/-- `sitegen.context.FileType` (context.py:18). -/
inductive FileType where
  | OTHER
  | MARKDOWN
  | HTML
  | YAML
deriving DecidableEq, Repr

/-- The extension set of each `FileType` member (`FileType.value`). -/
def FileType.value : FileType → List String
  | .OTHER => []
  | .MARKDOWN => [".md", ".mkd", ".mdwn", ".mdown", ".mdtxt", ".mdtext", ".markdown"]
  | .HTML => [".html", ".htm", ".xhtml", ".xht"]
  | .YAML => [".yaml", ".yml"]

/-- Python `str.lower()`, character by character. -/
def str_lower (s : String) : String := String.mk (s.data.map Char.toLower)

/-- `FileType.from_suffix` (context.py:41): first member whose extension set
contains the lower-cased suffix; `OTHER` has the empty set, so the scan is
equivalent to trying `MARKDOWN`, `HTML`, `YAML` in order. -/
def FileType.from_suffix (suffix : String) : FileType :=
  let s := str_lower suffix
  if s ∈ FileType.MARKDOWN.value then .MARKDOWN
  else if s ∈ FileType.HTML.value then .HTML
  else if s ∈ FileType.YAML.value then .YAML
  else .OTHER

/-- `FileType.all` (context.py:48): the union of every member's extension
set (membership in the frozenset is membership in this list). -/
def FileType.all : List String :=
  FileType.OTHER.value ++ FileType.MARKDOWN.value ++ FileType.HTML.value ++ FileType.YAML.value

/-- `PurePath.suffix` of a single path component: the final dotted extension,
empty for names with no dot, for dotfiles, and for names ending in a dot
(CPython: `i = name.rfind('.'); name[i:] if 0 < i < len(name) - 1 else ''`). -/
def path_suffix (name : String) : String :=
  let cs := name.toList
  match (cs.reverse.indexOf? '.') with
  | none => ""
  | some ridx =>
    let i := cs.length - 1 - ridx
    if 0 < i ∧ i < cs.length - 1 then String.mk (cs.drop i) else ""

/-- `PurePath.with_suffix(".html")` on a single component: strip the old
suffix (as computed by `path_suffix`) and append `.html`. -/
def with_suffix_html (name : String) : String :=
  String.mk (name.toList.take (name.length - (path_suffix name).length)) ++ ".html"

/-- The suffix of a path = suffix of its final component; `""` for the
empty path (`PurePath.suffix` consults only the last component). -/
def spath_suffix (p : SPath) : String :=
  match p.getLast? with
  | none => ""
  | some n => path_suffix n

/-- `file_path.with_suffix(".html")` on a path (site.py:198): replace the
suffix of the final component. -/
def spath_with_suffix_html (p : SPath) : SPath :=
  match p.getLast? with
  | none => []
  | some n => p.dropLast ++ [with_suffix_html n]

/-- The Python exceptions that the modelled code can raise. -/
inductive PyErr where
  /-- `TypeError`: a call that binds an argument the callee does not accept. -/
  | typeError
  /-- `FileNotFoundError` (also raised by `Path.stat` on a vanished file). -/
  | fileNotFoundError
  /-- `ValueError` (cache digest / version mismatch, site.py:303,306). -/
  | valueError
  /-- `OSError` (any other read failure, site.py:311). -/
  | osError
  /-- `sitegen.exec.FileTypeError` (raised by `PageNode.create`, site.py:116). -/
  | fileTypeError
deriving DecidableEq, Repr

/-- `sitegen.site.SiteRoot` (site.py:314): the root path; the derived
directories below mirror the fields computed in `SiteRoot.__init__`. -/
structure SiteRoot where
  root : SPath
deriving DecidableEq, Repr

/-- `SOURCE_DIR` joined to the root (site.py:330). -/
def SiteRoot.source_dir (s : SiteRoot) : SPath := s.root ++ ["source"]

/-- `DEST_DIR` joined to the root (site.py:331). -/
def SiteRoot.dest_dir (s : SiteRoot) : SPath := s.root ++ ["build"]

/-- `TEMPLATE_DIR` joined to the root (site.py:332). -/
def SiteRoot.template_dir (s : SiteRoot) : SPath := s.root ++ ["templates"]

/-- `URL_BASE` (site.py:25). -/
def SiteRoot.url_base (_ : SiteRoot) : String := "https://itsdanjc.com"

/-- `URL_INDEX` (site.py:26). -/
def SiteRoot.url_index (_ : SiteRoot) : String := "index.html"

/-- `sitegen.context.BuildContext` (context.py:64).  `type` is spelled
`ftype` (Lean keyword).  Timestamps are integers; `dest_path_lastmod` is `0`
when the destination file does not exist (context.py:104). -/
structure BuildContext where
  source_path : SPath
  source_path_lastmod : Int
  dest_path : SPath
  dest_path_lastmod : Int
  template_path : SPath
  ftype : FileType
  url_path : String
  validate_only : Bool
deriving DecidableEq, Repr

/-- The body of `BuildContext.__init__` (context.py:86) given the results of
the two `stat` calls: `smod` is the source stat value, `dmod` the
destination stat value (`none` when the destination does not exist).
`urllib.parse.quote` is modelled as the identity (no claim depends on
percent-encoding) and `urljoin(base, p)` as `base ++ "/" ++ p` (the base URL
has no path of its own). -/
def BuildContext.make (site : SiteRoot) (source dest : SPath) (smod : Int)
    (dmod : Option Int) : BuildContext :=
  let source_path := site.source_dir ++ source
  let url0 := String.intercalate "/" dest
  let url1 :=
    if url0.endsWith ("/" ++ site.url_index) || url0 == site.url_index then
      url0.dropRight site.url_index.length
    else url0
  { source_path := source_path
    source_path_lastmod := smod
    dest_path := site.dest_dir ++ dest
    dest_path_lastmod := dmod.getD 0
    template_path := site.template_dir
    ftype := FileType.from_suffix (spath_suffix source_path)
    url_path := site.url_base ++ "/" ++ url1
    validate_only := false }

/-- `BuildContext.__init__` as actually executed over a filesystem
(`statFs p` is `p.stat().st_mtime`, `none` when `p` does not exist):
`self.source_path.stat()` (context.py:99) raises when the source file has
vanished between directory enumeration and entry construction. -/
def BuildContext.init (statFs : SPath → Option Int) (site : SiteRoot)
    (source dest : SPath) : Except PyErr BuildContext :=
  match statFs (site.source_dir ++ source) with
  | none => .error .fileNotFoundError
  | some smod => .ok (BuildContext.make site source dest smod
      (statFs (site.dest_dir ++ dest)))

/-- `BuildContext.build_reason` (context.py:111).  `fsExists` is the
filesystem existence test consulted at evaluation time
(`self.dest_path.exists()`, context.py:116). -/
def BuildContext.build_reason (fsExists : SPath → Bool) (ctx : BuildContext) :
    BuildReason :=
  if ctx.validate_only then .VALIDATION
  else if !(fsExists ctx.dest_path) then .CREATED
  else if ctx.dest_path_lastmod < ctx.source_path_lastmod then .CHANGED
  else .UNCHANGED

/-- A page of the site at index / cache time.  In the source, `Page`
(build.py:29) also carries parsed-document state (`title`, `body`,
`template`), but those attributes are only assigned during the out-of-scope
rendering phase (`parse` / `render`), after indexing; at index and cache
time a page is determined by its `BuildContext`. -/
structure Page where
  build_context : BuildContext
deriving DecidableEq, Repr

/-- `sitegen.site.TreeNode` (site.py:40).  The `parent` back-reference is a
non-owning lookup convenience (spec §9) and is omitted: the owning structure
is the `sub_dirs` edge modelled here. -/
inductive TreeNode where
  | mk (path : SPath) (pages : List Page) (sub_dirs : List TreeNode)

/-- The `path` field of a `TreeNode`. -/
def TreeNode.path : TreeNode → SPath
  | .mk p _ _ => p

/-- The `pages` field of a `TreeNode`. -/
def TreeNode.pages : TreeNode → List Page
  | .mk _ pg _ => pg

/-- The `sub_dirs` field of a `TreeNode`. -/
def TreeNode.sub_dirs : TreeNode → List TreeNode
  | .mk _ _ sd => sd

mutual

/-- `TreeNode.__iter__` (site.py:52): yield the node's own pages, then
each subdirectory in order, recursively. -/
def TreeNode.iter : TreeNode → List Page
  | .mk _ pages subs => pages ++ TreeNode.iterForest subs

/-- The `for s_d in self.sub_dirs: yield from s_d` loop of
`TreeNode.__iter__`. -/
def TreeNode.iterForest : List TreeNode → List Page
  | [] => []
  | t :: rest => t.iter ++ TreeNode.iterForest rest

end

/-- `SortKey.LAST_MODIFIED` (site.py:36): the key lambda
`lambda page: page.build_context.source_path_lastmod`. -/
def SortKey.LAST_MODIFIED (page : Page) : Int :=
  page.build_context.source_path_lastmod

/-- `TreeNode.sort` (site.py:91) with the default `reverse=True`:
`sorted(self, key=key, reverse=True)`, i.e. a stable descending sort of the
flattened iteration; the tree itself is not touched (`sorted` builds a new
list). -/
def TreeNode.sort (t : TreeNode) (key : Page → Int) : List Page :=
  t.iter.mergeSort (fun a b => decide (key b ≤ key a))

/-- A file of the source tree as seen by `os.walk` + `stat`: its name and
its last-modification time. -/
structure FsEntry where
  name : String
  mtime : Int
deriving DecidableEq, Repr

/-- A source directory tree: named subdirectories (in filesystem enumeration
order, i.e. the order `os.walk` reports them) and the files directly inside
(likewise in enumeration order). -/
inductive FsDir where
  | mk (dirs : List (String × FsDir)) (files : List FsEntry)

/-- The subdirectories of an `FsDir`. -/
def FsDir.dirs : FsDir → List (String × FsDir)
  | .mk ds _ => ds

/-- The files of an `FsDir`. -/
def FsDir.files : FsDir → List FsEntry
  | .mk _ fs => fs

mutual

/-- A real directory tree: file names are distinct within a directory and
subdirectory names are distinct within a directory, recursively. -/
def FsDir.wfb : FsDir → Bool
  | .mk dirs files =>
    decide ((files.map FsEntry.name).Nodup) &&
    decide ((dirs.map Prod.fst).Nodup) &&
    FsDir.wfbForest dirs

def FsDir.wfbForest : List (String × FsDir) → Bool
  | [] => true
  | (_, sub) :: rest => FsDir.wfb sub && FsDir.wfbForest rest

end

/-- The `PageNode._registry` dispatch of `PageNode.create` (site.py:112):
only `FileType.MARKDOWN` is registered (site.py:101; the `HTML` and `YAML`
entries are commented out), so any other type raises
`FileTypeError` via the `KeyError` handler (site.py:116). -/
def PageNode.create (ctx : BuildContext) : Except PyErr Page :=
  match ctx.ftype with
  | .MARKDOWN => .ok (Page.mk ctx)
  | _ => .error .fileTypeError

/-!
## Layer A: the indexing pass, with `BuildContext` built per its signature

`TreeBuilder.__init__` (site.py:153) walks the source directory top-down
(`os.walk`), creating the `TreeNode` children of each visited directory
(`create_directory_nodes`, site.py:176) and then the `Page` entries for its
recognised files (`create_file_nodes`, site.py:187).  `buildTree` below is
that walk, with each entry's `BuildContext` built as `BuildContext.__init__`
(context.py:86) specifies over a stable filesystem.  The call-site slip of
site.py:203 (an `env` keyword that `__init__` does not accept) is modelled
separately and faithfully by `buildTreeE` below.
-/

/-- One iteration of the `create_file_nodes` loop body for a recognised
file (site.py:193): the source path relative to the source root, the
destination path with the suffix replaced by `.html`, and the
`BuildContext` built from the two stat results. -/
def filePage (site : SiteRoot) (destFs : SPath → Option Int) (rel : SPath)
    (e : FsEntry) : Page :=
  let file_path := rel ++ [e.name]
  let dest := spath_with_suffix_html file_path
  Page.mk (BuildContext.make site file_path dest e.mtime
    (destFs (site.dest_dir ++ dest)))

/-- The `create_file_nodes` loop (site.py:193): files whose lower-cased
suffix is not in `valid_ext = FileType.all()` are skipped (site.py:200);
each recognised file contributes exactly one page. -/
def filePages (site : SiteRoot) (destFs : SPath → Option Int) (rel : SPath)
    (files : List FsEntry) : List Page :=
  files.filterMap fun e =>
    if str_lower (spath_suffix (rel ++ [e.name])) ∈ FileType.all then
      some (filePage site destFs rel e)
    else none

mutual

/-- The tree built by the indexing walk for the directory `rel` (relative
to the source root): node path as in `os.walk` (`source_dir ++ rel`), the
pages of its recognised files, and one child per subdirectory in
enumeration order. -/
def buildTree (site : SiteRoot) (destFs : SPath → Option Int) (rel : SPath) :
    FsDir → TreeNode
  | .mk dirs files =>
    .mk (site.source_dir ++ rel) (filePages site destFs rel files)
      (buildForest site destFs rel dirs)

/-- The `create_directory_nodes` children (site.py:181), each then filled
in by the continuing walk. -/
def buildForest (site : SiteRoot) (destFs : SPath → Option Int) (rel : SPath) :
    List (String × FsDir) → List TreeNode
  | [] => []
  | (n, sub) :: rest =>
    buildTree site destFs (rel ++ [n]) sub :: buildForest site destFs rel rest

end

/-!
## Layer B: the indexing pass exactly as written

site.py:203 calls `BuildContext(site=…, source=…, dest=…, env=…)`, but
`BuildContext.__init__` (context.py:86) accepts only `(self, site, source,
dest)`.  Python raises `TypeError` while binding the unexpected `env`
keyword, before the `__init__` body (and its `stat` calls) runs, so entry
construction raises for every recognised file — in particular for one whose
source has vanished since enumeration.  `TreeBuilder.__init__` has no
handler around the walk, so the first such exception propagates out and
`write_cache` (site.py:174) is never reached.
-/

/-- The call expression of site.py:203 as Python executes it: binding the
`env` keyword fails with `TypeError` before `__init__` runs. -/
def callBuildContext (_statFs : SPath → Option Int) (_site : SiteRoot)
    (_source _dest : SPath) : Except PyErr BuildContext :=
  .error .typeError

/-- The `create_file_nodes` loop exactly as written: filter by suffix, then
construct the `BuildContext` (site.py:203) and the page (site.py:211),
propagating any exception. -/
def filePagesE (statFs : SPath → Option Int) (site : SiteRoot) (rel : SPath) :
    List FsEntry → Except PyErr (List Page)
  | [] => .ok []
  | e :: rest =>
    let file_path := rel ++ [e.name]
    if str_lower (spath_suffix file_path) ∈ FileType.all then
      match callBuildContext statFs site file_path
          (spath_with_suffix_html file_path) with
      | .error er => .error er
      | .ok ctx =>
        match PageNode.create ctx with
        | .error er => .error er
        | .ok pg =>
          match filePagesE statFs site rel rest with
          | .error er => .error er
          | .ok pgs => .ok (pg :: pgs)
    else filePagesE statFs site rel rest

mutual

/-- The indexing walk exactly as written: any exception raised while
building a directory's entries aborts the whole pass. -/
def buildTreeE (statFs : SPath → Option Int) (site : SiteRoot) (rel : SPath) :
    FsDir → Except PyErr TreeNode
  | .mk dirs files =>
    match filePagesE statFs site rel files with
    | .error er => .error er
    | .ok pages =>
      match buildForestE statFs site rel dirs with
      | .error er => .error er
      | .ok subs => .ok (.mk (site.source_dir ++ rel) pages subs)

def buildForestE (statFs : SPath → Option Int) (site : SiteRoot) (rel : SPath) :
    List (String × FsDir) → Except PyErr (List TreeNode)
  | [] => .ok []
  | (n, sub) :: rest =>
    match buildTreeE statFs site (rel ++ [n]) sub with
    | .error er => .error er
    | .ok t =>
      match buildForestE statFs site rel rest with
      | .error er => .error er
      | .ok ts => .ok (t :: ts)

end

/-!
## The persisted cache artifact

`write_cache` (site.py:243) pickles `{"version": cache_version, "tree":
tree}`, hashes the pickle with SHA-256, writes the gzip-compressed pickle
and the hex digest to temporary files in the cache directory, and renames
both into place.  `read_cache` (site.py:276) reverses this, treating a
digest or version mismatch as `ValueError` and any other failure as
`FileNotFoundError` / `OSError`.

The pickle byte stream is modelled as a list of tokens, one per serialized
atom (`pickle.dumps` of the tree is a flat opcode stream; a token stands
for an opcode-with-argument).  SHA-256 is modelled by an injective digest
(`sha256_hex`), capturing the collision-freeness the design relies on, and
gzip by an injective framing whose decompressor accepts only its own
output.
-/

/-- One atom of the serialized stream. -/
inductive Tok where
  | n (v : Nat)
  | s (v : String)
  | i (v : Int)
deriving DecidableEq, Repr

/-- Length-prefixed encoding of a path. -/
def encodePath (p : SPath) : List Tok := .n p.length :: p.map Tok.s

/-- Tag of a `FileType` in the stream. -/
def ftypeTag : FileType → Nat
  | .OTHER => 0
  | .MARKDOWN => 1
  | .HTML => 2
  | .YAML => 3

/-- Inverse of `ftypeTag`. -/
def ftypeOfTag : Nat → Option FileType
  | 0 => some .OTHER
  | 1 => some .MARKDOWN
  | 2 => some .HTML
  | 3 => some .YAML
  | _ => none

/-- Encoding of a page: its `BuildContext` fields in declaration order. -/
def encodePage (pg : Page) : List Tok :=
  let c := pg.build_context
  encodePath c.source_path ++ [.i c.source_path_lastmod] ++
  encodePath c.dest_path ++ [.i c.dest_path_lastmod] ++
  encodePath c.template_path ++
  [.n (ftypeTag c.ftype), .s c.url_path, .n (if c.validate_only then 1 else 0)]

mutual

/-- Preorder encoding of a tree node: its path, its count-prefixed pages,
and its count-prefixed subtrees. -/
def TreeNode.encTok : TreeNode → List Tok
  | .mk path pages subs =>
    encodePath path ++ (.n pages.length :: pages.flatMap encodePage) ++
    (.n subs.length :: encodeForest subs)

/-- Concatenated encoding of a forest of tree nodes. -/
def encodeForest : List TreeNode → List Tok
  | [] => []
  | t :: rest => t.encTok ++ encodeForest rest

end

mutual

/-- Number of nodes of a tree (used as decoder fuel). -/
def TreeNode.nodes : TreeNode → Nat
  | .mk _ _ subs => 1 + nodesForest subs

/-- Number of nodes of a forest. -/
def nodesForest : List TreeNode → Nat
  | [] => 0
  | t :: rest => t.nodes + nodesForest rest

end

/-- Read one `Nat` token. -/
def readNat : List Tok → Option (Nat × List Tok)
  | .n v :: r => some (v, r)
  | _ => none

/-- Read one `String` token. -/
def readStr : List Tok → Option (String × List Tok)
  | .s v :: r => some (v, r)
  | _ => none

/-- Read one `Int` token. -/
def readInt : List Tok → Option (Int × List Tok)
  | .i v :: r => some (v, r)
  | _ => none

/-- Read `k` string tokens. -/
def readStrs : Nat → List Tok → Option (List String × List Tok)
  | 0, l => some ([], l)
  | k + 1, l => do
    let (x, l1) ← readStr l
    let (xs, l2) ← readStrs k l1
    some (x :: xs, l2)

/-- Decode a length-prefixed path. -/
def decodePath (l : List Tok) : Option (SPath × List Tok) := do
  let (k, l1) ← readNat l
  readStrs k l1

/-- Decode one page. -/
def decodePage (l : List Tok) : Option (Page × List Tok) := do
  let (sp, l1) ← decodePath l
  let (sm, l2) ← readInt l1
  let (dp, l3) ← decodePath l2
  let (dm, l4) ← readInt l3
  let (tp, l5) ← decodePath l4
  let (tg, l6) ← readNat l5
  let (ft) ← ftypeOfTag tg
  let (url, l7) ← readStr l6
  let (vo, l8) ← readNat l7
  some (⟨⟨sp, sm, dp, dm, tp, ft, url, vo == 1⟩⟩, l8)

/-- Decode `k` pages. -/
def decodePages : Nat → List Tok → Option (List Page × List Tok)
  | 0, l => some ([], l)
  | k + 1, l => do
    let (p, l1) ← decodePage l
    let (ps, l2) ← decodePages k l1
    some (p :: ps, l2)

/-- Decode exactly `k` trees, with explicit fuel (one unit per node). -/
def decodeT : Nat → Nat → List Tok → Option (List TreeNode × List Tok)
  | _, 0, l => some ([], l)
  | 0, _ + 1, _ => none
  | f + 1, k + 1, l => do
    let (path, l1) ← decodePath l
    let (np, l2) ← readNat l1
    let (pages, l3) ← decodePages np l2
    let (ns, l4) ← readNat l3
    let (subs, l5) ← decodeT f ns l4
    let (rest, l6) ← decodeT f k l5
    some (.mk path pages subs :: rest, l6)

/-- The pickled payload (site.py:254): the cache version and the tree. -/
structure CachePayload where
  version : Nat
  tree : TreeNode

/-- `TreeBuilder.cache_version` (site.py:134). -/
def cache_version : Nat := 1

/-- `pickle.dumps(payload)` (site.py:255), as a token stream. -/
def dumps (p : CachePayload) : List Tok :=
  .n p.version :: encodeForest [p.tree]

/-- `pickle.loads` (site.py:297): decode the stream, `none` on a stream
that is not a valid pickle (`UnpicklingError` / `EOFError`). -/
def loads (b : List Tok) : Option CachePayload := do
  let (v, l1) ← readNat b
  let (ts, _) ← decodeT (b.length + 1) 1 l1
  match ts with
  | [t] => some ⟨v, t⟩
  | _ => none

/-- `gzip.compress` (site.py:262), modelled as an injective framing: a
magic header token in front of the stream. -/
def gzip_compress (b : List Tok) : List Tok := .n 8075 :: b

/-- `gzip.decompress` (site.py:293): accepts exactly the output of
`gzip_compress`; anything else raises `BadGzipFile` (an `OSError`),
modelled as `none`. -/
def gzip_decompress : List Tok → Option (List Tok)
  | .n 8075 :: r => some r
  | _ => none

/-- An injective fold of a list of numbers (`Nat.pair` is injective in both
arguments, and the length prefix separates different lengths). -/
def hashNat (l : List Nat) : Nat := Nat.pair l.length (l.foldl Nat.pair 0)

/-- Injective image of a string. -/
def strToNat (s : String) : Nat := hashNat (s.data.map Char.toNat)

/-- Injective image of an integer. -/
def intToNat : Int → Nat
  | .ofNat k => 2 * k
  | .negSucc k => 2 * k + 1

/-- Injective image of a token. -/
def tokToNat : Tok → Nat
  | .n v => Nat.pair 0 v
  | .s v => Nat.pair 1 (strToNat v)
  | .i v => Nat.pair 2 (intToNat v)

/-- `hashlib.sha256(bytes).hexdigest()` (site.py:256,296), modelled as an
injective digest of the token stream (the model of the hash's
collision-freeness; the hex string is represented by its value). -/
def sha256_hex (b : List Tok) : Nat := hashNat (b.map tokToNat)

/-- The on-disk state of the two co-located cache files
(`.cache/srctree.bin` and `.cache/srctree_h.bin`, site.py:150): the payload
bytes and their modification time, and the digest file contents.  `none`
means the file does not exist. -/
structure CacheDisk where
  payload : Option (List Tok)
  payloadMtime : Int
  digest : Option Nat
deriving DecidableEq, Repr

/-- `TreeBuilder.read_cache` (site.py:276): existence check, decompress,
hash, unpickle, digest comparison, version comparison.  (In the source the
digest of the decompressed bytes is computed before `pickle.loads` and
compared after it; an unpickling failure is converted to `OSError` by the
handler at site.py:310 either way.) -/
def read_cache (d : CacheDisk) : Except PyErr TreeNode :=
  match d.payload, d.digest with
  | some pb, some hfile =>
    (match gzip_decompress pb with
     | none => .error .osError
     | some read =>
       match loads read with
       | none => .error .osError
       | some data =>
         if sha256_hex read ≠ hfile then .error .valueError
         else if data.version ≠ cache_version then .error .valueError
         else .ok data.tree)
  | _, _ => .error .fileNotFoundError

/-- `TreeBuilder.write_cache` (site.py:243): the final on-disk state, with
both files replaced and the payload's mtime set to the write time. -/
def write_cache (tree : TreeNode) (now : Int) : CacheDisk :=
  let dump := dumps ⟨cache_version, tree⟩
  { payload := some (gzip_compress dump)
    payloadMtime := now
    digest := some (sha256_hex dump) }

/-- Every state the two visible cache files pass through during
`write_cache` (site.py:243-274), starting from disk state `d`: after the
in-memory pickling/hashing, after each temporary file is written (temporary
names, invisible to `read_cache`), after `os.replace` of the payload
(site.py:273), and after `os.replace` of the digest (site.py:274). -/
def write_cache_states (d : CacheDisk) (tree : TreeNode) (now : Int) :
    List CacheDisk :=
  let dump := dumps ⟨cache_version, tree⟩
  [ d, d, d,
    { payload := some (gzip_compress dump), payloadMtime := now,
      digest := d.digest },
    write_cache tree now ]

/-- `TreeBuilder.cache` (site.py:214): the age check and the exception
handlers around `read_cache`.  `delta` is the optional `cache_delta`
(`timedelta` as an integer duration); Python's `if delta` is false both for
`None` and for a zero `timedelta`, hence the `dl ≠ 0` guard.  The missing
cache file makes `cache_last_mod` the epoch (site.py:219). -/
def TreeBuilder.cache (delta : Option Int) (now : Int) (d : CacheDisk) :
    Option TreeNode :=
  let cache_last_mod : Int := if d.payload.isSome then d.payloadMtime else 0
  let expired : Bool :=
    match delta with
    | some dl => if dl ≠ 0 then decide (now - cache_last_mod > dl) else false
    | none => false
  if expired then none
  else
    match read_cache d with
    | .ok t => some t
    | .error _ => none

/-- `TreeBuilder.__init__` (site.py:153): ask the cache for a usable tree;
on a miss perform the indexing walk and, only if it completes, write the
cache back.  Returns the outcome and the resulting on-disk cache state (an
exception propagates before `write_cache` is reached, leaving the disk
unchanged). -/
def treeBuilderRun (delta : Option Int) (now : Int) (disk : CacheDisk)
    (statFs : SPath → Option Int) (site : SiteRoot) (src : FsDir) :
    Except PyErr TreeNode × CacheDisk :=
  match TreeBuilder.cache delta now disk with
  | some t => (.ok t, disk)
  | none =>
    match buildTreeE statFs site [] src with
    | .error er => (.error er, disk)
    | .ok t => (.ok t, write_cache t now)

/-- A page occurring somewhere in a tree: among the node's own `pages` or
inside one of its subdirectories. -/
inductive PageIn : Page → TreeNode → Prop where
  | here (p : Page) (path : SPath) (pages : List Page) (subs : List TreeNode) :
      p ∈ pages → PageIn p (.mk path pages subs)
  | deeper (p : Page) (path : SPath) (pages : List Page) (subs : List TreeNode)
      (t : TreeNode) : t ∈ subs → PageIn p t → PageIn p (.mk path pages subs)

/-- A file with the given name at the given relative directory path inside
a source tree. -/
inductive FileInDir : FsDir → SPath → String → Prop where
  | here (dirs : List (String × FsDir)) (files : List FsEntry) (e : FsEntry) :
      e ∈ files → FileInDir (.mk dirs files) [] e.name
  | deeper (dirs : List (String × FsDir)) (files : List FsEntry) (n : String)
      (sub : FsDir) (rel : SPath) (nm : String) :
      (n, sub) ∈ dirs → FileInDir sub rel nm →
      FileInDir (.mk dirs files) (n :: rel) nm

/-!
## Induction principles for the nested tree types
-/

/-- Structural induction over a forest of tree nodes. -/
def TreeNode.forestInduction (motive : List TreeNode → Prop)
    (hnil : motive [])
    (hcons : ∀ path pages subs rest, motive subs → motive rest →
      motive (.mk path pages subs :: rest)) : ∀ ts, motive ts
  | [] => hnil
  | .mk p pg subs :: rest =>
    hcons p pg subs rest (TreeNode.forestInduction motive hnil hcons subs)
      (TreeNode.forestInduction motive hnil hcons rest)

/-- Structural induction over a tree node, with the hypothesis available
for every member of `sub_dirs`. -/
def TreeNode.inductionOn (motive : TreeNode → Prop)
    (h : ∀ path pages subs, (∀ t ∈ subs, motive t) → motive (.mk path pages subs)) :
    ∀ t, motive t
  | .mk path pages subs =>
    h path pages subs fun t ht =>
      have : sizeOf t < sizeOf (TreeNode.mk path pages subs) :=
        Nat.lt_of_lt_of_le (List.sizeOf_lt_of_mem ht)
          (by simp only [TreeNode.mk.sizeOf_spec]; omega)
      TreeNode.inductionOn motive h t
termination_by t => sizeOf t

/-- Structural induction over a directory tree, with the hypothesis
available for every subdirectory. -/
def FsDir.inductionOn (motive : FsDir → Prop)
    (h : ∀ dirs files, (∀ x ∈ dirs, motive x.2) → motive (.mk dirs files)) :
    ∀ d, motive d
  | .mk dirs files =>
    h dirs files fun x hx =>
      have : sizeOf x.2 < 1 + sizeOf dirs + sizeOf files := by
        have h1 := List.sizeOf_lt_of_mem hx
        have h2 : sizeOf x.2 < sizeOf x := by
          cases x with
          | mk a b => simp only [Prod.mk.sizeOf_spec]; omega
        omega
      FsDir.inductionOn motive h x.2
termination_by d => sizeOf d

/-!
## Injectivity of the modelled digest
-/

theorem foldl_pair_inj : ∀ (l1 l2 : List Nat) (a1 a2 : Nat),
    l1.length = l2.length → l1.foldl Nat.pair a1 = l2.foldl Nat.pair a2 →
    a1 = a2 ∧ l1 = l2 := by
  intro l1
  induction l1 with
  | nil =>
    intro l2 a1 a2 hlen hfold
    cases l2 with
    | nil => exact ⟨hfold, rfl⟩
    | cons x xs => simp at hlen
  | cons x xs ih =>
    intro l2 a1 a2 hlen hfold
    cases l2 with
    | nil => simp at hlen
    | cons y ys =>
      simp only [List.length_cons, Nat.succ.injEq] at hlen
      simp only [List.foldl_cons] at hfold
      obtain ⟨hpair, htail⟩ := ih ys (Nat.pair a1 x) (Nat.pair a2 y) hlen hfold
      obtain ⟨ha, hx⟩ := Nat.pair_eq_pair.mp hpair
      exact ⟨ha, by rw [hx, htail]⟩

theorem hashNat_inj {l1 l2 : List Nat} (h : hashNat l1 = hashNat l2) : l1 = l2 := by
  unfold hashNat at h
  obtain ⟨hlen, hfold⟩ := Nat.pair_eq_pair.mp h
  exact (foldl_pair_inj l1 l2 0 0 hlen hfold).2

theorem char_toNat_inj {c1 c2 : Char} (h : c1.toNat = c2.toNat) : c1 = c2 :=
  Char.ext (UInt32.toNat.inj h)

theorem strToNat_inj {s1 s2 : String} (h : strToNat s1 = strToNat s2) : s1 = s2 := by
  unfold strToNat at h
  have hdata := hashNat_inj h
  refine String.ext ?_
  exact List.map_injective_iff.mpr (fun _ _ => char_toNat_inj) hdata

theorem intToNat_inj {i1 i2 : Int} (h : intToNat i1 = intToNat i2) : i1 = i2 := by
  cases i1 <;> cases i2 <;> simp only [intToNat] at h <;>
    first
    | exact congrArg Int.ofNat (by omega)
    | exact congrArg Int.negSucc (by omega)
    | exact absurd h (by omega)

theorem tokToNat_inj {t1 t2 : Tok} (h : tokToNat t1 = tokToNat t2) : t1 = t2 := by
  cases t1 <;> cases t2 <;> simp only [tokToNat] at h <;>
    first
    | (obtain ⟨h0, hv⟩ := Nat.pair_eq_pair.mp h; omega)
    | (obtain ⟨h0, hv⟩ := Nat.pair_eq_pair.mp h
       first
       | exact congrArg _ hv
       | exact congrArg _ (strToNat_inj hv)
       | exact congrArg _ (intToNat_inj hv))

theorem sha256_hex_inj {b1 b2 : List Tok} (h : sha256_hex b1 = sha256_hex b2) :
    b1 = b2 := by
  unfold sha256_hex at h
  exact List.map_injective_iff.mpr (fun _ _ => tokToNat_inj) (hashNat_inj h)

/-!
## Round trip of the serializer
-/

theorem readStrs_encode : ∀ (p : SPath) (r : List Tok),
    readStrs p.length (p.map Tok.s ++ r) = some (p, r) := by
  intro p
  induction p with
  | nil => intro r; rfl
  | cons x xs ih => intro r; simp [readStrs, readStr, ih]

theorem decodePath_encode (p : SPath) (r : List Tok) :
    decodePath (encodePath p ++ r) = some (p, r) := by
  simp [decodePath, encodePath, readNat, readStrs_encode]

theorem ftypeOfTag_tag (t : FileType) : ftypeOfTag (ftypeTag t) = some t := by
  cases t <;> rfl

theorem decodePage_encode (pg : Page) (r : List Tok) :
    decodePage (encodePage pg ++ r) = some (pg, r) := by
  obtain ⟨⟨sp, sm, dp, dm, tp, ft, url, vo⟩⟩ := pg
  simp only [encodePage, List.append_assoc, List.cons_append, List.nil_append]
  simp only [decodePage, Option.bind_eq_bind]
  rw [decodePath_encode]
  simp only [Option.some_bind, readInt]
  rw [decodePath_encode]
  simp only [Option.some_bind, readInt]
  rw [decodePath_encode]
  simp only [Option.some_bind, readNat, readStr, ftypeOfTag_tag]
  cases vo <;> rfl

theorem decodePages_encode : ∀ (ps : List Page) (r : List Tok),
    decodePages ps.length (ps.flatMap encodePage ++ r) = some (ps, r) := by
  intro ps
  induction ps with
  | nil => intro r; rfl
  | cons p pstail ih =>
    intro r
    simp [decodePages, List.append_assoc, decodePage_encode, ih]

theorem nodesForest_pos (t : TreeNode) (rest : List TreeNode) :
    1 ≤ nodesForest (t :: rest) := by
  cases t with
  | mk path pages subs => simp [nodesForest, TreeNode.nodes]; omega

theorem decodeT_encode : ∀ (f : Nat) (ts : List TreeNode) (r : List Tok),
    nodesForest ts ≤ f → decodeT f ts.length (encodeForest ts ++ r) = some (ts, r) := by
  intro f
  induction f with
  | zero =>
    intro ts r hf
    cases ts with
    | nil => rfl
    | cons t rest => exact absurd (Nat.le_trans (nodesForest_pos t rest) hf) (by omega)
  | succ f ih =>
    intro ts r hf
    cases ts with
    | nil => rfl
    | cons t rest =>
      cases t with
      | mk path pages subs =>
        have hsubs : nodesForest subs ≤ f := by
          simp [nodesForest, TreeNode.nodes] at hf; omega
        have hrest : nodesForest rest ≤ f := by
          simp [nodesForest, TreeNode.nodes] at hf; omega
        simp only [encodeForest, TreeNode.encTok, List.length_cons]
        simp only [decodeT, List.append_assoc, List.cons_append]
        simp [decodePath_encode, readNat, decodePages_encode,
          ih subs _ hsubs, ih rest r hrest, List.append_assoc]

theorem nodesForest_le_len : ∀ ts, nodesForest ts ≤ (encodeForest ts).length := by
  refine TreeNode.forestInduction _ (by simp [nodesForest, encodeForest]) ?_
  intro path pages subs rest hsubs hrest
  simp only [nodesForest, TreeNode.nodes, encodeForest, TreeNode.encTok,
    List.length_append, List.length_cons, encodePath, List.length_map]
  omega

theorem loads_dumps (p : CachePayload) : loads (dumps p) = some p := by
  obtain ⟨v, t⟩ := p
  have hfuel : nodesForest [t] ≤ (encodeForest [t]).length + 2 := by
    have := nodesForest_le_len [t]
    omega
  have hdec := decodeT_encode ((encodeForest [t]).length + 2) [t] [] hfuel
  rw [List.append_nil] at hdec
  simp only [List.length_cons, List.length_nil, Nat.zero_add] at hdec
  simp only [loads, dumps, readNat, Option.bind_eq_bind, Option.some_bind,
    List.length_cons]
  rw [hdec]
  rfl

theorem gzip_roundtrip (b : List Tok) : gzip_decompress (gzip_compress b) = some b := rfl

theorem gzip_decompress_shape {b r : List Tok} (h : gzip_decompress b = some r) :
    b = gzip_compress r := by
  unfold gzip_decompress at h
  split at h
  · next v l => cases h; rfl
  · cases h

/-!
## Basic cache lemmas
-/

theorem read_cache_write (tree : TreeNode) (tW : Int) :
    read_cache (write_cache tree tW) = .ok tree := by
  simp [read_cache, write_cache, gzip_roundtrip, loads_dumps]

theorem cache_of_read_err {d : CacheDisk} {e : PyErr}
    (h : read_cache d = .error e) (delta : Option Int) (now : Int) :
    TreeBuilder.cache delta now d = none := by
  simp [TreeBuilder.cache, h]

theorem cache_write_hit (tree : TreeNode) (tW now : Int) (delta : Option Int)
    (h : ∀ dl, delta = some dl → now - tW ≤ dl) :
    TreeBuilder.cache delta now (write_cache tree tW) = some tree := by
  have hread : read_cache (CacheDisk.mk
      (some (gzip_compress (dumps ⟨cache_version, tree⟩))) tW
      (some (sha256_hex (dumps ⟨cache_version, tree⟩)))) = .ok tree :=
    read_cache_write tree tW
  cases delta with
  | none => simp [TreeBuilder.cache, write_cache, hread]
  | some dl =>
    have hle := h dl rfl
    by_cases hz : dl = 0
    · subst hz
      simp [TreeBuilder.cache, write_cache, hread]
    · have hnotgt : ¬(now - tW > dl) := by omega
      simp [TreeBuilder.cache, write_cache, hread, hz, hnotgt]

theorem read_cache_mutated (tree : TreeNode) (tM : Int) {b' : List Tok}
    (hne : b' ≠ gzip_compress (dumps ⟨cache_version, tree⟩)) :
    ∃ e, read_cache (CacheDisk.mk (some b') tM
      (some (sha256_hex (dumps ⟨cache_version, tree⟩)))) = .error e := by
  cases hg : gzip_decompress b' with
  | none => exact ⟨.osError, by simp [read_cache, hg]⟩
  | some r =>
    have hb : b' = gzip_compress r := gzip_decompress_shape hg
    have hr : r ≠ dumps ⟨cache_version, tree⟩ := by
      intro heq; exact hne (by rw [hb, heq])
    cases hl : loads r with
    | none => exact ⟨.osError, by simp [read_cache, hg, hl]⟩
    | some data =>
      have hh : sha256_hex r ≠ sha256_hex (dumps ⟨cache_version, tree⟩) :=
        fun hcol => hr (sha256_hex_inj hcol)
      exact ⟨.valueError, by simp [read_cache, hg, hl, hh]⟩

theorem read_cache_digest_mismatch (tree : TreeNode) (tM : Int) {hv : Nat}
    (hne : hv ≠ sha256_hex (dumps ⟨cache_version, tree⟩)) :
    read_cache { write_cache tree tM with digest := some hv } = .error .valueError := by
  have hne' : sha256_hex (dumps ⟨cache_version, tree⟩) ≠ hv := Ne.symm hne
  simp [read_cache, write_cache, gzip_roundtrip, loads_dumps, hne']

theorem read_cache_version_mismatch (tree : TreeNode) (tM : Int) {v : Nat}
    (hne : v ≠ cache_version) :
    read_cache (CacheDisk.mk (some (gzip_compress (dumps ⟨v, tree⟩))) tM
      (some (sha256_hex (dumps ⟨v, tree⟩)))) = .error .valueError := by
  simp [read_cache, gzip_roundtrip, loads_dumps, hne]

/-!
## Iteration and sorting lemmas
-/

theorem iterForest_eq_flatten : ∀ ts : List TreeNode,
    TreeNode.iterForest ts = (ts.map TreeNode.iter).flatten := by
  intro ts
  induction ts with
  | nil => rfl
  | cons t rest ih => simp [TreeNode.iterForest, ih]

theorem mem_iterForest {p : Page} : ∀ {ts : List TreeNode},
    p ∈ TreeNode.iterForest ts ↔ ∃ t ∈ ts, p ∈ t.iter := by
  intro ts
  induction ts with
  | nil => simp [TreeNode.iterForest]
  | cons t rest ih => simp [TreeNode.iterForest, ih]

theorem pageIn_of_mem_iter : ∀ t p, p ∈ t.iter → PageIn p t := by
  refine TreeNode.inductionOn (fun t => ∀ p, p ∈ t.iter → PageIn p t) ?_
  intro path pages subs IH p hp
  rcases List.mem_append.mp (by simpa [TreeNode.iter] using hp) with h | h
  · exact PageIn.here _ _ _ _ h
  · obtain ⟨t', ht', hin⟩ := mem_iterForest.mp h
    exact PageIn.deeper _ _ _ _ t' ht' (IH t' ht' p hin)

theorem mem_iter_of_pageIn {p : Page} {t : TreeNode} (h : PageIn p t) :
    p ∈ t.iter := by
  induction h with
  | here path pages subs hp =>
    simp only [TreeNode.iter]
    exact List.mem_append.mpr (Or.inl hp)
  | deeper path pages subs t' ht' hin ih =>
    simp only [TreeNode.iter]
    exact List.mem_append.mpr (Or.inr (mem_iterForest.mpr ⟨t', ht', ih⟩))

/-!
## Write-state trichotomy (atomic replacement)
-/

theorem mixed_state_cases (d : CacheDisk) (tree : TreeNode) (now : Int) :
    CacheDisk.mk (some (gzip_compress (dumps ⟨cache_version, tree⟩))) now d.digest =
      write_cache tree now ∨
    (∀ delta now2, TreeBuilder.cache delta now2
      (CacheDisk.mk (some (gzip_compress (dumps ⟨cache_version, tree⟩))) now d.digest) = none) := by
  cases hd : d.digest with
  | none =>
    right
    intro delta now2
    exact cache_of_read_err (e := .fileNotFoundError) (by simp [read_cache]) delta now2
  | some hv =>
    by_cases hcol : hv = sha256_hex (dumps ⟨cache_version, tree⟩)
    · left
      simp [write_cache, hcol]
    · right
      intro delta now2
      have hrd : read_cache { write_cache tree now with digest := some hv } =
          .error .valueError := read_cache_digest_mismatch tree now hcol
      exact cache_of_read_err (by simpa [write_cache] using hrd) delta now2

/-!
## Uniqueness of source paths in an indexed tree
-/

theorem filePages_sourcePaths (site : SiteRoot) (destFs : SPath → Option Int)
    (rel : SPath) (files : List FsEntry) :
    (filePages site destFs rel files).map (fun p => p.build_context.source_path) =
    files.filterMap (fun e =>
      if str_lower (spath_suffix (rel ++ [e.name])) ∈ FileType.all then
        some ((site.source_dir ++ rel) ++ [e.name])
      else none) := by
  induction files with
  | nil => rfl
  | cons f tl ih =>
    simp only [filePages, List.filterMap_cons] at ih ⊢
    by_cases hc : str_lower (spath_suffix (rel ++ [f.name])) ∈ FileType.all
    · simp only [if_pos hc, List.map_cons, ih]
      simp [filePage, BuildContext.make, List.append_assoc]
    · simp only [if_neg hc, ih]

theorem nodup_filterMap_names (base : SPath) (cond : FsEntry → Prop)
    [DecidablePred cond] :
    ∀ files : List FsEntry, (files.map FsEntry.name).Nodup →
    (files.filterMap (fun e =>
      if cond e then some (base ++ [e.name]) else none)).Nodup := by
  intro files
  induction files with
  | nil => intro _; simp
  | cons f tl ih =>
    intro hnod
    simp only [List.map_cons, List.nodup_cons] at hnod
    obtain ⟨hf, htl⟩ := hnod
    by_cases hc : cond f
    · simp only [List.filterMap_cons, if_pos hc]
      refine List.nodup_cons.mpr ⟨?_, ih htl⟩
      intro hmem
      obtain ⟨e, he, heq⟩ := List.mem_filterMap.mp hmem
      by_cases hce : cond e
      · rw [if_pos hce] at heq
        have hsame : base ++ [e.name] = base ++ [f.name] := Option.some.inj heq
        have hname : e.name = f.name := by
          have h1 : [e.name] = [f.name] := List.append_cancel_left hsame
          exact List.head_eq_of_cons_eq h1
        exact hf (hname ▸ List.mem_map_of_mem FsEntry.name he)
      · rw [if_neg hce] at heq
        cases heq
    · simp only [List.filterMap_cons, if_neg hc]
      exact ih htl

theorem buildForest_shape_aux (site : SiteRoot) (destFs : SPath → Option Int) :
    ∀ dirs : List (String × FsDir),
    (∀ x ∈ dirs, ∀ rel p, p ∈ (buildTree site destFs rel x.2).iter →
      ∃ tail, tail ≠ [] ∧
        p.build_context.source_path = (site.source_dir ++ rel) ++ tail) →
    ∀ rel p, p ∈ TreeNode.iterForest (buildForest site destFs rel dirs) →
      ∃ x ∈ dirs, ∃ t, t ≠ [] ∧
        p.build_context.source_path = (site.source_dir ++ rel) ++ (x.1 :: t) := by
  intro dirs
  induction dirs with
  | nil => intro _ rel p h; simp [buildForest, TreeNode.iterForest] at h
  | cons x tl ihl =>
    intro IH rel p h
    obtain ⟨n, sub⟩ := x
    simp only [buildForest, TreeNode.iterForest] at h
    rcases List.mem_append.mp h with h1 | h2
    · obtain ⟨t1, hne1, hsrc1⟩ := IH (n, sub) (by simp) (rel ++ [n]) p h1
      refine ⟨(n, sub), by simp, t1, hne1, ?_⟩
      rw [hsrc1]
      simp [List.append_assoc]
    · obtain ⟨x, hx, t2, hne2, hsrc2⟩ :=
        ihl (fun y hy => IH y (List.mem_cons_of_mem _ hy)) rel p h2
      exact ⟨x, List.mem_cons_of_mem _ hx, t2, hne2, hsrc2⟩

theorem buildTree_shape (site : SiteRoot) (destFs : SPath → Option Int) :
    ∀ d rel p, p ∈ (buildTree site destFs rel d).iter →
      ∃ tail, tail ≠ [] ∧
        p.build_context.source_path = (site.source_dir ++ rel) ++ tail := by
  refine FsDir.inductionOn (fun d => ∀ rel p,
    p ∈ (buildTree site destFs rel d).iter → ∃ tail, tail ≠ [] ∧
      p.build_context.source_path = (site.source_dir ++ rel) ++ tail) ?_
  intro dirs files IH rel p hp
  simp only [buildTree, TreeNode.iter] at hp
  rcases List.mem_append.mp hp with h | h
  · obtain ⟨e, he, heq⟩ := List.mem_filterMap.mp h
    by_cases hc : str_lower (spath_suffix (rel ++ [e.name])) ∈ FileType.all
    · rw [if_pos hc] at heq
      have hp1 : p = filePage site destFs rel e := (Option.some.inj heq).symm
      refine ⟨[e.name], by simp, ?_⟩
      rw [hp1]
      simp [filePage, BuildContext.make, List.append_assoc]
    · rw [if_neg hc] at heq
      cases heq
  · obtain ⟨x, hx, t, hne, hsrc⟩ :=
      buildForest_shape_aux site destFs dirs (fun y hy => IH y hy) rel p h
    exact ⟨x.1 :: t, by simp, hsrc⟩

theorem buildForest_shape (site : SiteRoot) (destFs : SPath → Option Int)
    (dirs : List (String × FsDir)) (rel : SPath) (p : Page)
    (h : p ∈ TreeNode.iterForest (buildForest site destFs rel dirs)) :
    ∃ x ∈ dirs, ∃ t, t ≠ [] ∧
      p.build_context.source_path = (site.source_dir ++ rel) ++ (x.1 :: t) :=
  buildForest_shape_aux site destFs dirs
    (fun x _ => buildTree_shape site destFs x.2) rel p h

theorem buildForest_nodup (site : SiteRoot) (destFs : SPath → Option Int) :
    ∀ dirs : List (String × FsDir),
    (∀ x ∈ dirs, FsDir.wfb x.2 = true → ∀ rel,
      ((buildTree site destFs rel x.2).iter.map
        (fun p => p.build_context.source_path)).Nodup) →
    FsDir.wfbForest dirs = true → (dirs.map Prod.fst).Nodup →
    ∀ rel, ((TreeNode.iterForest (buildForest site destFs rel dirs)).map
      (fun p => p.build_context.source_path)).Nodup := by
  intro dirs
  induction dirs with
  | nil => intro _ _ _ rel; simp [buildForest, TreeNode.iterForest]
  | cons x tl ihl =>
    intro IH hwf hdn rel
    obtain ⟨n, sub⟩ := x
    have hwsub : FsDir.wfb sub = true := by
      simp only [FsDir.wfbForest, Bool.and_eq_true] at hwf; exact hwf.1
    have hwtl : FsDir.wfbForest tl = true := by
      simp only [FsDir.wfbForest, Bool.and_eq_true] at hwf; exact hwf.2
    have hnmem : n ∉ tl.map Prod.fst := by
      simp only [List.map_cons, List.nodup_cons] at hdn; exact hdn.1
    have hdn' : (tl.map Prod.fst).Nodup := by
      simp only [List.map_cons, List.nodup_cons] at hdn; exact hdn.2
    simp only [buildForest, TreeNode.iterForest, List.map_append]
    refine List.nodup_append.mpr ⟨IH (n, sub) (by simp) hwsub (rel ++ [n]),
      ihl (fun y hy => IH y (List.mem_cons_of_mem _ hy)) hwtl hdn' rel, ?_⟩
    intro a ha hb
    obtain ⟨p1, hp1, heq1⟩ := List.mem_map.mp ha
    obtain ⟨t1, hne1, hsrc1⟩ := buildTree_shape site destFs sub (rel ++ [n]) p1 hp1
    obtain ⟨p2, hp2, heq2⟩ := List.mem_map.mp hb
    obtain ⟨x2, hx2, t2, hne2, hsrc2⟩ :=
      buildForest_shape site destFs tl rel p2 hp2
    have hsrceq : p1.build_context.source_path = p2.build_context.source_path := by
      rw [heq1, heq2]
    have h1' : p1.build_context.source_path =
        (site.source_dir ++ rel) ++ (n :: t1) := by
      rw [hsrc1]; simp [List.append_assoc]
    have happeq : (site.source_dir ++ rel) ++ (n :: t1) =
        (site.source_dir ++ rel) ++ (x2.1 :: t2) := by
      rw [← h1', hsrceq, hsrc2]
    have hcons : (n :: t1) = (x2.1 :: t2) := List.append_cancel_left happeq
    have hhead : n = x2.1 := List.head_eq_of_cons_eq hcons
    exact hnmem (by rw [hhead]; exact List.mem_map_of_mem Prod.fst hx2)

theorem buildTree_nodup (site : SiteRoot) (destFs : SPath → Option Int) :
    ∀ d, FsDir.wfb d = true → ∀ rel,
      ((buildTree site destFs rel d).iter.map
        (fun p => p.build_context.source_path)).Nodup := by
  refine FsDir.inductionOn (fun d => FsDir.wfb d = true → ∀ rel,
    ((buildTree site destFs rel d).iter.map
      (fun p => p.build_context.source_path)).Nodup) ?_
  intro dirs files IH hwf rel
  simp only [FsDir.wfb, Bool.and_eq_true, decide_eq_true_eq] at hwf
  obtain ⟨⟨hfn, hdnm⟩, hwff⟩ := hwf
  simp only [buildTree, TreeNode.iter, List.map_append]
  refine List.nodup_append.mpr ⟨?_, ?_, ?_⟩
  · rw [filePages_sourcePaths]
    exact nodup_filterMap_names _ _ files hfn
  · exact buildForest_nodup site destFs dirs IH hwff hdnm rel
  · intro a ha hb
    rw [filePages_sourcePaths] at ha
    obtain ⟨e, he, heq⟩ := List.mem_filterMap.mp ha
    have heq' : a = (site.source_dir ++ rel) ++ [e.name] := by
      by_cases hc : str_lower (spath_suffix (rel ++ [e.name])) ∈ FileType.all
      · rw [if_pos hc] at heq; exact (Option.some.inj heq).symm
      · rw [if_neg hc] at heq; cases heq
    obtain ⟨p2, hp2, heq2⟩ := List.mem_map.mp hb
    obtain ⟨x2, hx2, t2, hne2, hsrc2⟩ :=
      buildForest_shape site destFs dirs rel p2 hp2
    have happeq : (site.source_dir ++ rel) ++ [e.name] =
        (site.source_dir ++ rel) ++ (x2.1 :: t2) := by
      rw [← heq', ← heq2, hsrc2]
    have hlist : [e.name] = x2.1 :: t2 := List.append_cancel_left happeq
    have ht2 : t2 = [] := by
      injection hlist with h1 h2
      exact h2.symm
    exact hne2 ht2

/-!
## Error propagation out of the indexing pass
-/

theorem spath_suffix_concat (xs : SPath) (n : String) :
    spath_suffix (xs ++ [n]) = path_suffix n := by
  simp [spath_suffix, List.getLast?_concat]

theorem filePagesE_error (statFs : SPath → Option Int) (site : SiteRoot)
    (rel : SPath) : ∀ (files : List FsEntry) (e : FsEntry), e ∈ files →
    str_lower (path_suffix e.name) ∈ FileType.all →
    ∃ er, filePagesE statFs site rel files = .error er := by
  intro files
  induction files with
  | nil => intro e he _; cases he
  | cons f tl ih =>
    intro e he hrec
    by_cases hc : str_lower (spath_suffix (rel ++ [f.name])) ∈ FileType.all
    · exact ⟨.typeError, by simp [filePagesE, hc, callBuildContext]⟩
    · rcases List.mem_cons.mp he with heq | he'
      · rw [spath_suffix_concat] at hc
        rw [heq] at hrec
        exact absurd hrec hc
      · obtain ⟨er, her⟩ := ih e he' hrec
        exact ⟨er, by simp [filePagesE, hc, her]⟩

theorem buildForestE_error (statFs : SPath → Option Int) (site : SiteRoot) :
    ∀ (dirs : List (String × FsDir)) (n : String) (sub : FsDir),
    (n, sub) ∈ dirs →
    (∀ rel0, ∃ e, buildTreeE statFs site rel0 sub = .error e) →
    ∀ rel0, ∃ e, buildForestE statFs site rel0 dirs = .error e := by
  intro dirs
  induction dirs with
  | nil => intro n sub h _ _; cases h
  | cons x tl ih =>
    intro n sub hmem herr rel0
    obtain ⟨n', sub'⟩ := x
    cases hbt : buildTreeE statFs site (rel0 ++ [n']) sub' with
    | error e => exact ⟨e, by simp [buildForestE, hbt]⟩
    | ok t =>
      rcases List.mem_cons.mp hmem with heq | hmem'
      · obtain ⟨rfl, rfl⟩ := Prod.mk.injEq .. ▸ heq
        obtain ⟨e, he⟩ := herr (rel0 ++ [n])
        rw [he] at hbt
        cases hbt
      · obtain ⟨e, he⟩ := ih n sub hmem' herr rel0
        exact ⟨e, by simp [buildForestE, hbt, he]⟩

theorem buildTreeE_error_of_file (statFs : SPath → Option Int) (site : SiteRoot)
    {src : FsDir} {rel : SPath} {nm : String} (hin : FileInDir src rel nm) :
    str_lower (path_suffix nm) ∈ FileType.all →
    ∀ rel0, ∃ e, buildTreeE statFs site rel0 src = .error e := by
  induction hin with
  | here dirs files e he =>
    intro hrec rel0
    obtain ⟨er, her⟩ := filePagesE_error statFs site rel0 files e he hrec
    exact ⟨er, by simp [buildTreeE, her]⟩
  | deeper dirs files n sub rel' nm' hmem hin2 ih =>
    intro hrec rel0
    cases hfp : filePagesE statFs site rel0 files with
    | error e => exact ⟨e, by simp [buildTreeE, hfp]⟩
    | ok pages =>
      obtain ⟨e, he⟩ := buildForestE_error statFs site dirs n sub hmem (ih hrec) rel0
      exact ⟨e, by simp [buildTreeE, hfp, he]⟩

/-!
## The claims
-/

/-- C1 (failing evaluation): indexing a source tree containing a single
recognised file `a.md` — with a perfectly healthy filesystem (`stat`
succeeds everywhere) and an empty cache — does not complete with one
`PageEntry`: `create_file_nodes` (site.py:203) passes an `env` keyword that
`BuildContext.__init__` (context.py:86) does not accept, so Python raises
`TypeError` while binding the call, the indexing pass aborts, and no cache
is written. -/
theorem c1_recognized_file_raises_typeError :
    treeBuilderRun none 0 (CacheDisk.mk none 0 none) (fun _ => some 0)
      (SiteRoot.mk []) (FsDir.mk [] [FsEntry.mk "a.md" 3]) =
    (.error .typeError, CacheDisk.mk none 0 none) := rfl

/-- C2 (failing evaluation): with a maximum cache age of zero, a valid
cache artifact written at time 5 and read at time 105 (age 100 > 0) is
still returned: `expired = ... if delta else False` (site.py:225) treats the
zero `timedelta` as falsy, so a zero maximum behaves like "unbounded"
instead of forcing a fresh index. -/
theorem c2_zero_max_age_returns_stale :
    TreeBuilder.cache (some 0) 105 (write_cache (TreeNode.mk [] [] []) 5) =
      some (TreeNode.mk [] [] []) := rfl

/-- C3: `build_reason` (context.py:111) is decided in priority order: the
validate-only flag wins regardless of timestamps; otherwise a missing
destination file gives `CREATED`; otherwise a source strictly newer than
the destination gives `CHANGED`; otherwise `UNCHANGED`. -/
theorem c3_build_reason_priority (fs : SPath → Bool) (ctx : BuildContext) :
    (ctx.validate_only = true →
      BuildContext.build_reason fs ctx = .VALIDATION) ∧
    (ctx.validate_only = false → fs ctx.dest_path = false →
      BuildContext.build_reason fs ctx = .CREATED) ∧
    (ctx.validate_only = false → fs ctx.dest_path = true →
      ctx.dest_path_lastmod < ctx.source_path_lastmod →
      BuildContext.build_reason fs ctx = .CHANGED) ∧
    (ctx.validate_only = false → fs ctx.dest_path = true →
      ctx.source_path_lastmod ≤ ctx.dest_path_lastmod →
      BuildContext.build_reason fs ctx = .UNCHANGED) :=
  ⟨fun h1 => by simp [BuildContext.build_reason, h1],
   fun h1 h2 => by simp [BuildContext.build_reason, h1, h2],
   fun h1 h2 h3 => by simp [BuildContext.build_reason, h1, h2, h3],
   fun h1 h2 h3 => by
     have hng : ¬(ctx.dest_path_lastmod < ctx.source_path_lastmod) := by omega
     simp [BuildContext.build_reason, h1, h2, hng]⟩

/-- Witness for C3: a context whose source (mtime 5) is newer than its
existing destination (mtime 3) is `CHANGED`. -/
theorem c3_build_reason_priority_witness :
    BuildContext.build_reason (fun _ => true)
      (BuildContext.mk [] 5 [] 3 [] .MARKDOWN "" false) = .CHANGED :=
  (c3_build_reason_priority (fun _ => true)
    (BuildContext.mk [] 5 [] 3 [] .MARKDOWN "" false)).2.2.1 rfl rfl (by decide)

/-- C4: saving any tree with `write_cache` and immediately loading it
through `TreeBuilder.cache` — with a maximum cache age that is unset or at
least the elapsed time — succeeds and returns a tree equal to the one
saved. -/
theorem c4_save_then_load (tree : TreeNode) (tW now : Int) (delta : Option Int)
    (h : ∀ dl, delta = some dl → now - tW ≤ dl) :
    TreeBuilder.cache delta now (write_cache tree tW) = some tree :=
  cache_write_hit tree tW now delta h

/-- Witness for C4: write at time 5, load at time 7 with a 10-unit maximum
age. -/
theorem c4_save_then_load_witness :
    TreeBuilder.cache (some 10) 7 (write_cache (TreeNode.mk [] [] []) 5) =
      some (TreeNode.mk [] [] []) :=
  c4_save_then_load (TreeNode.mk [] [] []) 5 7 (some 10)
    (fun dl hdl => by injection hdl with h; omega)

/-- C5: every corrupted on-disk cache state is a cache miss, never an error
propagated to the caller and never a wrong tree: a missing payload file, a
missing digest file, a payload with one token mutated while the digest file
is unchanged, a digest file that does not match the payload, and an
artifact written under a different schema version all make
`TreeBuilder.cache` return `none` (full re-index). -/
theorem c5_corrupt_cache_is_miss (delta : Option Int) (now : Int)
    (tree : TreeNode) (tW : Int) :
    TreeBuilder.cache delta now (CacheDisk.mk none tW
      (some (sha256_hex (dumps ⟨cache_version, tree⟩)))) = none ∧
    TreeBuilder.cache delta now { write_cache tree tW with digest := none } = none ∧
    (∀ (i : Nat) (tok : Tok),
      (gzip_compress (dumps ⟨cache_version, tree⟩)).set i tok ≠
        gzip_compress (dumps ⟨cache_version, tree⟩) →
      TreeBuilder.cache delta now (CacheDisk.mk
        (some ((gzip_compress (dumps ⟨cache_version, tree⟩)).set i tok)) tW
        (some (sha256_hex (dumps ⟨cache_version, tree⟩)))) = none) ∧
    (∀ hv : Nat, hv ≠ sha256_hex (dumps ⟨cache_version, tree⟩) →
      TreeBuilder.cache delta now
        { write_cache tree tW with digest := some hv } = none) ∧
    (∀ v : Nat, v ≠ cache_version →
      TreeBuilder.cache delta now (CacheDisk.mk
        (some (gzip_compress (dumps ⟨v, tree⟩))) tW
        (some (sha256_hex (dumps ⟨v, tree⟩)))) = none) := by
  refine ⟨?_, ?_, ?_, ?_, ?_⟩
  · exact @cache_of_read_err _ .fileNotFoundError (by simp [read_cache]) delta now
  · exact @cache_of_read_err _ .fileNotFoundError
      (by simp [read_cache, write_cache]) delta now
  · intro i tok hne
    obtain ⟨e, he⟩ := read_cache_mutated tree tW hne
    exact cache_of_read_err he delta now
  · intro hv hne
    exact cache_of_read_err (read_cache_digest_mismatch tree tW hne) delta now
  · intro v hne
    exact cache_of_read_err (read_cache_version_mismatch tree tW hne) delta now

/-- Witness for C5: flipping the second token of a freshly written payload
while keeping the digest file makes the load a miss. -/
theorem c5_corrupt_cache_is_miss_witness :
    TreeBuilder.cache none 0 (CacheDisk.mk
      (some ((gzip_compress (dumps ⟨cache_version, TreeNode.mk [] [] []⟩)).set 1
        (Tok.n 7))) 0
      (some (sha256_hex (dumps ⟨cache_version, TreeNode.mk [] [] []⟩)))) = none :=
  (c5_corrupt_cache_is_miss none 0 (TreeNode.mk [] [] []) 0).2.2.1 1 (Tok.n 7)
    (by decide)

/-- C6: every state the two visible cache files pass through during
`write_cache` is either the previous complete state, the new complete
state, or a mismatched payload/digest pair that every subsequent load
treats as a miss — never a torn artifact served to a caller. -/
theorem c6_write_states_atomic (d : CacheDisk) (tree : TreeNode) (now : Int)
    (delta : Option Int) (now2 : Int) :
    ∀ s ∈ write_cache_states d tree now,
      s = d ∨ s = write_cache tree now ∨ TreeBuilder.cache delta now2 s = none := by
  intro s hs
  simp only [write_cache_states, List.mem_cons, List.not_mem_nil, or_false] at hs
  rcases hs with rfl | rfl | rfl | rfl | rfl
  · exact Or.inl rfl
  · exact Or.inl rfl
  · exact Or.inl rfl
  · rcases mixed_state_cases d tree now with h | h
    · exact Or.inr (Or.inl h)
    · exact Or.inr (Or.inr (h delta now2))
  · exact Or.inr (Or.inl rfl)

/-- Witness for C6: interrupting between the two renames over an empty
previous cache leaves a payload/digest mismatch that loads as a miss. -/
theorem c6_write_states_atomic_witness :
    TreeBuilder.cache none 0 (CacheDisk.mk
      (some (gzip_compress (dumps ⟨cache_version, TreeNode.mk [] [] []⟩))) 7 none) =
      none := by
  have h := c6_write_states_atomic (CacheDisk.mk none 0 none)
    (TreeNode.mk [] [] []) 7 none 0
    (CacheDisk.mk
      (some (gzip_compress (dumps ⟨cache_version, TreeNode.mk [] [] []⟩))) 7 none)
    (by decide)
  rcases h with h | h | h
  · exact absurd h (by decide)
  · exact absurd h (by decide)
  · exact h

/-- C7: sorting by source-modified timestamp, descending (`TreeNode.sort`
with `SortKey.LAST_MODIFIED`, the default `reverse=True`), returns a
permutation of the flattened entries in non-increasing timestamp order,
strictly decreasing when all timestamps are distinct.  The operation is a
pure function of the tree (`sorted` builds a new list), so the underlying
tree is unchanged by construction. -/
theorem c7_sort_descending (t : TreeNode) :
    (t.sort SortKey.LAST_MODIFIED).Perm t.iter ∧
    (t.sort SortKey.LAST_MODIFIED).Pairwise
      (fun a b => SortKey.LAST_MODIFIED b ≤ SortKey.LAST_MODIFIED a) ∧
    ((t.iter.map SortKey.LAST_MODIFIED).Nodup →
      (t.sort SortKey.LAST_MODIFIED).Pairwise
        (fun a b => SortKey.LAST_MODIFIED b < SortKey.LAST_MODIFIED a)) := by
  have htrans : ∀ a b c : Page,
      (decide (SortKey.LAST_MODIFIED b ≤ SortKey.LAST_MODIFIED a)) = true →
      (decide (SortKey.LAST_MODIFIED c ≤ SortKey.LAST_MODIFIED b)) = true →
      (decide (SortKey.LAST_MODIFIED c ≤ SortKey.LAST_MODIFIED a)) = true := by
    intro a b c h1 h2
    simp only [decide_eq_true_eq] at *
    omega
  have htotal : ∀ a b : Page,
      ((decide (SortKey.LAST_MODIFIED b ≤ SortKey.LAST_MODIFIED a)) ||
        (decide (SortKey.LAST_MODIFIED a ≤ SortKey.LAST_MODIFIED b))) = true := by
    intro a b
    simp only [Bool.or_eq_true, decide_eq_true_eq]
    omega
  have hperm : (t.sort SortKey.LAST_MODIFIED).Perm t.iter :=
    List.mergeSort_perm t.iter _
  have hple : (t.sort SortKey.LAST_MODIFIED).Pairwise
      (fun a b => SortKey.LAST_MODIFIED b ≤ SortKey.LAST_MODIFIED a) := by
    have hs := List.sorted_mergeSort htrans htotal t.iter
    exact hs.imp (fun h => by simpa using h)
  refine ⟨hperm, hple, ?_⟩
  intro hnod
  have hnods : ((t.sort SortKey.LAST_MODIFIED).map SortKey.LAST_MODIFIED).Nodup :=
    (List.Perm.nodup_iff (hperm.map SortKey.LAST_MODIFIED)).mpr hnod
  have hpneq : (t.sort SortKey.LAST_MODIFIED).Pairwise
      (fun a b => SortKey.LAST_MODIFIED a ≠ SortKey.LAST_MODIFIED b) :=
    List.pairwise_map.mp hnods
  exact (hple.and hpneq).imp
    (fun h => lt_of_le_of_ne h.1 (Ne.symm h.2))

/-- Witness for C7: a two-page tree with distinct timestamps sorts into
strictly decreasing order. -/
theorem c7_sort_descending_witness :
    ((TreeNode.mk []
      [Page.mk (BuildContext.mk [] 5 [] 0 [] .MARKDOWN "" false),
       Page.mk (BuildContext.mk ["b"] 9 [] 0 [] .MARKDOWN "" false)] []).sort
        SortKey.LAST_MODIFIED).Pairwise
      (fun a b => SortKey.LAST_MODIFIED b < SortKey.LAST_MODIFIED a) :=
  (c7_sort_descending (TreeNode.mk []
    [Page.mk (BuildContext.mk [] 5 [] 0 [] .MARKDOWN "" false),
     Page.mk (BuildContext.mk ["b"] 9 [] 0 [] .MARKDOWN "" false)] [])).2.2
    (by decide)

/-- C8: flat iteration (`TreeNode.__iter__`) yields the node's own entries
first, then the entries of each subdirectory depth-first in attachment
order, and it yields exactly the pages occurring in the tree. -/
theorem c8_iter_order (t : TreeNode) :
    t.iter = t.pages ++ (t.sub_dirs.map TreeNode.iter).flatten ∧
    ∀ p : Page, PageIn p t ↔ p ∈ t.iter := by
  constructor
  · cases t with
    | mk path pages subs =>
      simp [TreeNode.iter, TreeNode.pages, TreeNode.sub_dirs, iterForest_eq_flatten]
  · intro p
    exact ⟨mem_iter_of_pageIn, pageIn_of_mem_iter t p⟩

/-- C9: in a tree produced by an indexing pass over a real directory tree
(distinct sibling names), no two entries share a source path. -/
theorem c9_source_paths_unique (site : SiteRoot) (destFs : SPath → Option Int)
    (d : FsDir) (hwf : FsDir.wfb d = true) :
    ((buildTree site destFs [] d).iter.map
      (fun p => p.build_context.source_path)).Nodup :=
  buildTree_nodup site destFs d hwf []

/-- Witness for C9: a root with `a.md` and `b.txt` plus a subdirectory `d`
containing its own `a.md`. -/
theorem c9_source_paths_unique_witness :
    ((buildTree (SiteRoot.mk []) (fun _ => none) []
      (FsDir.mk [("d", FsDir.mk [] [FsEntry.mk "a.md" 1])]
        [FsEntry.mk "a.md" 0, FsEntry.mk "b.txt" 2])).iter.map
      (fun p => p.build_context.source_path)).Nodup :=
  c9_source_paths_unique (SiteRoot.mk []) (fun _ => none)
    (FsDir.mk [("d", FsDir.mk [] [FsEntry.mk "a.md" 1])]
      [FsEntry.mk "a.md" 0, FsEntry.mk "b.txt" 2]) (by decide)

/-- C10: if the cache misses and the walked tree contains a recognised file
whose source cannot be stat'ed (it vanished between enumeration and entry
construction), the exception raised while constructing that entry's
`BuildContext` — under the call as written (site.py:203) this is the
`TypeError` raised at argument binding, before the stat is even attempted —
propagates out of `TreeBuilder.__init__`: the pass aborts and the on-disk
cache artifact is left exactly as it was. -/
theorem c10_stat_failure_aborts (delta : Option Int) (now : Int)
    (disk : CacheDisk) (statFs : SPath → Option Int) (site : SiteRoot)
    (src : FsDir) (rel : SPath) (nm : String)
    (hfile : FileInDir src rel nm)
    (hrec : str_lower (path_suffix nm) ∈ FileType.all)
    (hvanished : statFs ((site.source_dir ++ rel) ++ [nm]) = none)
    (hmiss : TreeBuilder.cache delta now disk = none) :
    (∃ e, (treeBuilderRun delta now disk statFs site src).1 = .error e) ∧
    (treeBuilderRun delta now disk statFs site src).2 = disk := by
  obtain ⟨e, he⟩ := buildTreeE_error_of_file statFs site hfile hrec []
  refine ⟨⟨e, ?_⟩, ?_⟩ <;> simp [treeBuilderRun, hmiss, he]

/-- Witness for C10: a single `a.md` whose stat fails, over an empty
cache. -/
theorem c10_stat_failure_aborts_witness :
    (∃ e, (treeBuilderRun none 0 (CacheDisk.mk none 0 none) (fun _ => none)
      (SiteRoot.mk []) (FsDir.mk [] [FsEntry.mk "a.md" 0])).1 = .error e) ∧
    (treeBuilderRun none 0 (CacheDisk.mk none 0 none) (fun _ => none)
      (SiteRoot.mk []) (FsDir.mk [] [FsEntry.mk "a.md" 0])).2 =
      CacheDisk.mk none 0 none :=
  c10_stat_failure_aborts none 0 (CacheDisk.mk none 0 none) (fun _ => none)
    (SiteRoot.mk []) (FsDir.mk [] [FsEntry.mk "a.md" 0]) [] "a.md"
    (FileInDir.here [] [FsEntry.mk "a.md" 0] (FsEntry.mk "a.md" 0) (by decide))
    (by decide) rfl rfl

end Sitegen
